import Mathlib

set_option maxHeartbeats 1000000

namespace Libtwirc

/-! Shallow embedding of libtwirc (src/libtwirc.c).  Byte strings are
modelled as `List Char`; the NUL terminator of C strings is the character
with code 0.  Recursive loops of the C source are modelled with an explicit
fuel argument (always instantiated with a sufficient bound, proved fuel
independent below) so that every definition is executable by the kernel. -/

/-- The NUL byte: the C string terminator that `libtwirc_next_chunk`
splits the received span on. -/
def nulChar : Char := Char.ofNat 0

/-- Models `strstr(src, "\r\n")` combined with the split done by
`libtwirc_shift_token`: `none` when the two-byte separator CR LF does not
occur in `src`; otherwise `some (tok, rest)` for the leftmost occurrence,
with `src = tok ++ [CR, LF] ++ rest`. -/
def crlfSplitFirst : List Char → Option (List Char × List Char)
  | [] => none
  | a :: l =>
    if a = '\r' ∧ l.head? = some '\n' then some ([], l.tail)
    else
      match crlfSplitFirst l with
      | none => none
      | some (t, r) => some (a :: t, r)

theorem crlf_some_lt {b : List Char} {t r : List Char}
    (h : crlfSplitFirst b = some (t, r)) : r.length < b.length := by
  induction b generalizing t with
  | nil => simp [crlfSplitFirst] at h
  | cons a l ih =>
    rw [crlfSplitFirst] at h
    split at h
    · rename_i hc
      obtain ⟨rfl, rfl⟩ := Prod.mk.injEq .. ▸ Option.some.injEq .. ▸ h
      cases l with
      | nil => simp at hc
      | cons x xs => simp; omega
    · split at h
      · exact absurd h (by simp)
      · rename_i t' r' hm
        obtain ⟨rfl, rfl⟩ := Prod.mk.injEq .. ▸ Option.some.injEq .. ▸ h
        exact Nat.lt_succ_of_lt (ih hm)

theorem crlf_append_some {b t r : List Char} (f : List Char)
    (h : crlfSplitFirst b = some (t, r)) :
    crlfSplitFirst (b ++ f) = some (t, r ++ f) := by
  induction b generalizing t with
  | nil => simp [crlfSplitFirst] at h
  | cons a l ih =>
    rw [crlfSplitFirst] at h
    rw [List.cons_append, crlfSplitFirst]
    split at h
    · rename_i hc
      obtain ⟨rfl, rfl⟩ := Prod.mk.injEq .. ▸ Option.some.injEq .. ▸ h
      cases l with
      | nil => simp at hc
      | cons x xs =>
        obtain ⟨rfl, hx⟩ := hc
        simp only [List.head?_cons, Option.some.injEq] at hx
        subst hx
        simp
    · rename_i hc
      have hl : l ≠ [] := by
        intro hnil
        subst hnil
        simp [crlfSplitFirst] at h
      have hc' : ¬(a = '\r' ∧ (l ++ f).head? = some '\n') := by
        cases l with
        | nil => exact absurd rfl hl
        | cons x xs => simpa using hc
      rw [if_neg hc']
      split at h
      · exact absurd h (by simp)
      · rename_i t' r' hm
        obtain ⟨rfl, rfl⟩ := Prod.mk.injEq .. ▸ Option.some.injEq .. ▸ h
        rw [ih hm]

theorem crlf_none_head {b : List Char} (h : crlfSplitFirst b = none) :
    ∀ t r, crlfSplitFirst b ≠ some (t, r) := by
  intro t r hh
  rw [h] at hh
  exact absurd hh (by simp)

/-- One pass of the chunking loop of `libtwirc_process_data`:
`while ((off = libtwirc_next_chunk(chunk, len + 1, buf, len, off)) > 0)
strcat(state->buffer, chunk);`.  `libtwirc_next_chunk` copies the bytes from
the current offset up to (excluding) the next NUL terminator — at most the
remaining length — and advances past that terminator; every extracted chunk is
appended to the backlog.  The fuel is the remaining length, which the offset
advance strictly decreases. -/
def chunkGo : Nat → List Char → List Char
  | 0, _ => []
  | fuel + 1, l =>
    match l with
    | [] => []
    | a :: l' =>
      let c := (a :: l').takeWhile (fun x => x ≠ nulChar)
      c ++ chunkGo fuel ((a :: l').drop (c.length + 1))

/-- The net effect of the chunking stage of `libtwirc_process_data` on the
received span: the NUL-separated sub-chunks, concatenated in order. -/
def chunkLoop (l : List Char) : List Char := chunkGo l.length l

theorem filter_eq_takeWhile_append {p : Char → Bool} : ∀ l : List Char,
    l.filter p = l.takeWhile p ++ ((l.dropWhile p).tail).filter p := by
  intro l
  induction l with
  | nil => rfl
  | cons a l ih =>
    by_cases ha : p a
    · simp [List.filter_cons, List.takeWhile_cons, List.dropWhile_cons, ha, ih]
    · simp [List.filter_cons, List.takeWhile_cons, List.dropWhile_cons,
        Bool.of_not_eq_true ha]

theorem chunkGo_eq_filter : ∀ (n : Nat) (l : List Char), l.length ≤ n →
    chunkGo n l = l.filter (fun x => x ≠ nulChar) := by
  intro n
  induction n with
  | zero =>
    intro l hl
    have : l = [] := List.eq_nil_of_length_eq_zero (Nat.le_zero.mp hl)
    subst this
    rfl
  | succ n ih =>
    intro l hl
    cases l with
    | nil => rfl
    | cons a l' =>
      rw [chunkGo]
      have hsplit : (a :: l').takeWhile (fun x => decide (x ≠ nulChar)) ++
          (a :: l').dropWhile (fun x => decide (x ≠ nulChar)) = a :: l' :=
        List.takeWhile_append_dropWhile _ _
      have hdrop1 : (a :: l').drop
          (((a :: l').takeWhile (fun x => decide (x ≠ nulChar))).length + 1) =
          ((a :: l').dropWhile (fun x => decide (x ≠ nulChar))).tail := by
        rw [← List.drop_drop, ← List.drop_left
          ((a :: l').takeWhile (fun x => decide (x ≠ nulChar)))
          ((a :: l').dropWhile (fun x => decide (x ≠ nulChar))), hsplit,
          List.drop_one]
      have hlen : (((a :: l').dropWhile (fun x => decide (x ≠ nulChar))).tail).length ≤ n := by
        have h1 := congrArg List.length hsplit
        have h2 := List.length_tail ((a :: l').dropWhile (fun x => decide (x ≠ nulChar)))
        simp only [List.length_append, List.length_cons] at h1 hl
        omega
      rw [hdrop1, ih _ hlen, ← filter_eq_takeWhile_append]

theorem chunkLoop_eq_filter (l : List Char) :
    chunkLoop l = l.filter (fun x => x ≠ nulChar) :=
  chunkGo_eq_filter l.length l le_rfl

theorem chunkLoop_append (l₁ l₂ : List Char) :
    chunkLoop (l₁ ++ l₂) = chunkLoop l₁ ++ chunkLoop l₂ := by
  simp [chunkLoop_eq_filter, List.filter_append]

theorem chunkLoop_eq_self {l : List Char} (h : ∀ c ∈ l, c ≠ nulChar) :
    chunkLoop l = l := by
  rw [chunkLoop_eq_filter]
  exact List.filter_eq_self.mpr (fun a ha => by simpa using h a ha)

/-- Modelled from the extraction stage of the Reassembler, spec §4.2:
"repeatedly scan the Backlog for the first occurrence of the two-byte line
terminator (CR LF).  If found, the bytes before it form one complete message;
remove the message and the terminator from the front of the Backlog; yield the
message.  Stop when no terminator is found."  Returns every complete message
in order together with the remaining (incomplete) bytes.  This is the
specification-side splitter that the code's extraction loop is compared
against. -/
def specSplitGo : Nat → List Char → List (List Char) × List Char
  | 0, b => ([], b)
  | fuel + 1, b =>
    match crlfSplitFirst b with
    | none => ([], b)
    | some (t, r) =>
      let p := specSplitGo fuel r
      (t :: p.1, p.2)

/-- Specification-side split of a backlog into all complete CR-LF-terminated
messages plus the remaining incomplete bytes (see `specSplitGo`). -/
def specSplitMessages (b : List Char) : List (List Char) × List Char :=
  specSplitGo b.length b

/-- The extraction loop of `libtwirc_process_data`:
`while (libtwirc_shift_token(msg, state->buffer, "\r\n") > 0)
libtwirc_process_msg(state, msg);`.  `libtwirc_shift_token` removes the
leading CR-LF-terminated token from the buffer and returns the token's
length; the loop guard `> 0` therefore stops the pass as soon as the
extracted token is empty, although that empty token and its separator have
already been removed from the buffer, and the empty token is not processed.
Returns the processed messages in order together with the final buffer. -/
def extractGo : Nat → List Char → List (List Char) × List Char
  | 0, b => ([], b)
  | fuel + 1, b =>
    match crlfSplitFirst b with
    | none => ([], b)
    | some (t, r) =>
      if t = [] then ([], r)
      else
        let p := extractGo fuel r
        (t :: p.1, p.2)

/-- The extraction loop of `libtwirc_process_data`, started with sufficient
fuel (each round strictly shrinks the buffer). -/
def extractLoop (b : List Char) : List (List Char) × List Char :=
  extractGo b.length b

theorem specSplitGo_fuel : ∀ (n₁ : Nat) (n₂ : Nat) (b : List Char),
    b.length ≤ n₁ → b.length ≤ n₂ → specSplitGo n₁ b = specSplitGo n₂ b := by
  intro n₁
  induction n₁ with
  | zero =>
    intro n₂ b h₁ h₂
    have : b = [] := List.eq_nil_of_length_eq_zero (Nat.le_zero.mp h₁)
    subst this
    cases n₂ with
    | zero => rfl
    | succ m => simp [specSplitGo, crlfSplitFirst]
  | succ n ih =>
    intro n₂ b h₁ h₂
    cases n₂ with
    | zero =>
      have : b = [] := List.eq_nil_of_length_eq_zero (Nat.le_zero.mp h₂)
      subst this
      simp [specSplitGo, crlfSplitFirst]
    | succ m =>
      rw [specSplitGo, specSplitGo]
      cases h : crlfSplitFirst b with
      | none => rfl
      | some tr =>
        obtain ⟨t, r⟩ := tr
        have hlt := crlf_some_lt h
        dsimp only
        rw [ih m r (by omega) (by omega)]

theorem extractGo_fuel : ∀ (n₁ : Nat) (n₂ : Nat) (b : List Char),
    b.length ≤ n₁ → b.length ≤ n₂ → extractGo n₁ b = extractGo n₂ b := by
  intro n₁
  induction n₁ with
  | zero =>
    intro n₂ b h₁ h₂
    have : b = [] := List.eq_nil_of_length_eq_zero (Nat.le_zero.mp h₁)
    subst this
    cases n₂ with
    | zero => rfl
    | succ m => simp [extractGo, crlfSplitFirst]
  | succ n ih =>
    intro n₂ b h₁ h₂
    cases n₂ with
    | zero =>
      have : b = [] := List.eq_nil_of_length_eq_zero (Nat.le_zero.mp h₂)
      subst this
      simp [extractGo, crlfSplitFirst]
    | succ m =>
      rw [extractGo, extractGo]
      cases h : crlfSplitFirst b with
      | none => rfl
      | some tr =>
        obtain ⟨t, r⟩ := tr
        have hlt := crlf_some_lt h
        dsimp only
        rw [ih m r (by omega) (by omega)]

theorem specSplit_none {b : List Char} (h : crlfSplitFirst b = none) :
    specSplitMessages b = ([], b) := by
  unfold specSplitMessages
  cases b with
  | nil => rfl
  | cons a l => rw [List.length_cons, specSplitGo, h]

theorem specSplit_some {b t r : List Char} (h : crlfSplitFirst b = some (t, r)) :
    specSplitMessages b =
      (t :: (specSplitMessages r).1, (specSplitMessages r).2) := by
  unfold specSplitMessages
  cases b with
  | nil => simp [crlfSplitFirst] at h
  | cons a l =>
    have hlt := crlf_some_lt h
    rw [List.length_cons, specSplitGo, h]
    dsimp only
    rw [specSplitGo_fuel l.length r.length r (by simpa using Nat.lt_succ_iff.mp hlt) le_rfl]

theorem extract_none {b : List Char} (h : crlfSplitFirst b = none) :
    extractLoop b = ([], b) := by
  unfold extractLoop
  cases b with
  | nil => rfl
  | cons a l => rw [List.length_cons, extractGo, h]

theorem extract_some_nil {b r : List Char} (h : crlfSplitFirst b = some ([], r)) :
    extractLoop b = ([], r) := by
  unfold extractLoop
  cases b with
  | nil => simp [crlfSplitFirst] at h
  | cons a l => rw [List.length_cons, extractGo, h]; rfl

theorem extract_some_cons {b t r : List Char} (h : crlfSplitFirst b = some (t, r))
    (ht : t ≠ []) :
    extractLoop b = (t :: (extractLoop r).1, (extractLoop r).2) := by
  unfold extractLoop
  cases b with
  | nil => simp [crlfSplitFirst] at h
  | cons a l =>
    have hlt := crlf_some_lt h
    rw [List.length_cons, extractGo, h]
    dsimp only
    rw [if_neg ht]
    rw [extractGo_fuel l.length r.length r (by simpa using Nat.lt_succ_iff.mp hlt) le_rfl]

theorem specSplit_rem_none : ∀ (n : Nat) (b : List Char), b.length ≤ n →
    crlfSplitFirst (specSplitMessages b).2 = none := by
  intro n
  induction n with
  | zero =>
    intro b hb
    have : b = [] := List.eq_nil_of_length_eq_zero (Nat.le_zero.mp hb)
    subst this
    rfl
  | succ n ih =>
    intro b hb
    cases h : crlfSplitFirst b with
    | none => rw [specSplit_none h]; exact h
    | some tr =>
      obtain ⟨t, r⟩ := tr
      have hlt := crlf_some_lt h
      rw [specSplit_some h]
      exact ih r (by omega)

theorem specSplit_append : ∀ (n : Nat) (b : List Char), b.length ≤ n →
    ∀ (f : List Char),
    specSplitMessages (b ++ f) =
      ((specSplitMessages b).1 ++
         (specSplitMessages ((specSplitMessages b).2 ++ f)).1,
       (specSplitMessages ((specSplitMessages b).2 ++ f)).2) := by
  intro n
  induction n with
  | zero =>
    intro b hb f
    have : b = [] := List.eq_nil_of_length_eq_zero (Nat.le_zero.mp hb)
    subst this
    simp [specSplitMessages, specSplitGo]
  | succ n ih =>
    intro b hb f
    cases h : crlfSplitFirst b with
    | none => rw [specSplit_none h]; simp
    | some tr =>
      obtain ⟨t, r⟩ := tr
      have hlt := crlf_some_lt h
      rw [specSplit_some h, specSplit_some (crlf_append_some f h),
        ih r (by omega) f]
      simp

theorem extract_decomp : ∀ (n : Nat) (b : List Char), b.length ≤ n →
    ∃ pad : List (List Char),
      (∀ x ∈ pad, x = ([] : List Char)) ∧
      (specSplitMessages b).1 =
        (extractLoop b).1 ++ pad ++ (specSplitMessages (extractLoop b).2).1 ∧
      (specSplitMessages b).2 = (specSplitMessages (extractLoop b).2).2 := by
  intro n
  induction n with
  | zero =>
    intro b hb
    have : b = [] := List.eq_nil_of_length_eq_zero (Nat.le_zero.mp hb)
    subst this
    exact ⟨[], by simp, by simp [specSplitMessages, specSplitGo, extractLoop, extractGo], rfl⟩
  | succ n ih =>
    intro b hb
    cases h : crlfSplitFirst b with
    | none =>
      refine ⟨[], by simp, ?_, ?_⟩ <;>
        simp [specSplit_none h, extract_none h]
    | some tr =>
      obtain ⟨t, r⟩ := tr
      have hlt := crlf_some_lt h
      by_cases ht : t = []
      · subst ht
        refine ⟨[[]], by simp, ?_, ?_⟩ <;>
          simp [specSplit_some h, extract_some_nil h]
      · obtain ⟨pad, hpad, h1, h2⟩ := ih r (by omega)
        refine ⟨pad, hpad, ?_, ?_⟩
        · rw [specSplit_some h, extract_some_cons h ht]
          simp [h1]
        · rw [specSplit_some h, extract_some_cons h ht]
          exact h2

theorem extract_eq_spec : ∀ (n : Nat) (b : List Char), b.length ≤ n →
    (∀ x ∈ (specSplitMessages b).1, x ≠ ([] : List Char)) →
    extractLoop b = specSplitMessages b := by
  intro n
  induction n with
  | zero =>
    intro b hb _
    have : b = [] := List.eq_nil_of_length_eq_zero (Nat.le_zero.mp hb)
    subst this
    rfl
  | succ n ih =>
    intro b hb hne
    cases h : crlfSplitFirst b with
    | none => rw [specSplit_none h, extract_none h]
    | some tr =>
      obtain ⟨t, r⟩ := tr
      have hlt := crlf_some_lt h
      have ht : t ≠ [] := by
        apply hne
        rw [specSplit_some h]
        exact List.mem_cons_self t _
      have hne' : ∀ x ∈ (specSplitMessages r).1, x ≠ ([] : List Char) := by
        intro x hx
        apply hne
        rw [specSplit_some h]
        exact List.mem_cons_of_mem t hx
      rw [specSplit_some h, extract_some_cons h ht, ih r (by omega) hne']

/-- `libtwirc_process_data(state, buf, len)`: every NUL-separated sub-chunk of
the received span is appended to the backlog (`libtwirc_next_chunk` loop),
then the extraction loop repeatedly shifts complete CR-LF-terminated messages
off the front of the backlog and processes them.  Returns the processed
messages in order and the new backlog. -/
def libtwirc_process_data (buffer : List Char) (buf : List Char) :
    List (List Char) × List Char :=
  extractLoop (buffer ++ chunkLoop buf)

/-- Feeding successive received byte spans through `libtwirc_process_data`,
threading the backlog from call to call and collecting every processed
message in order. -/
def feedAll (buffer : List Char) : List (List Char) → List (List Char) × List Char
  | [] => ([], buffer)
  | f :: fs =>
    let p := libtwirc_process_data buffer f
    let q := feedAll p.2 fs
    (p.1 ++ q.1, q.2)

theorem feed_decomp : ∀ (fs : List (List Char)) (b : List Char),
    ∃ ts : List (List Char),
      (specSplitMessages (b ++ chunkLoop fs.flatten)).1 =
        ts ++ (specSplitMessages (feedAll b fs).2).1 ∧
      (feedAll b fs).1.Sublist ts ∧
      (specSplitMessages (b ++ chunkLoop fs.flatten)).2 =
        (specSplitMessages (feedAll b fs).2).2 := by
  intro fs
  induction fs with
  | nil =>
    intro b
    refine ⟨[], ?_, ?_, ?_⟩ <;> simp [feedAll, chunkLoop_eq_filter]
  | cons f fs ih =>
    intro b
    obtain ⟨ts2, ih1, ih2, ih3⟩ := ih (libtwirc_process_data b f).2
    obtain ⟨pad, hpad, hd1, hd2⟩ :=
      extract_decomp (b ++ chunkLoop f).length (b ++ chunkLoop f) le_rfl
    have hd1' : (specSplitMessages (b ++ chunkLoop f)).1 =
        (libtwirc_process_data b f).1 ++ pad ++
          (specSplitMessages (libtwirc_process_data b f).2).1 := hd1
    have hd2' : (specSplitMessages (b ++ chunkLoop f)).2 =
        (specSplitMessages (libtwirc_process_data b f).2).2 := hd2
    have hjoin : b ++ chunkLoop (f :: fs).flatten =
        (b ++ chunkLoop f) ++ chunkLoop fs.flatten := by
      simp [chunkLoop_append, List.append_assoc]
    have split1 := specSplit_append (b ++ chunkLoop f).length (b ++ chunkLoop f)
      le_rfl (chunkLoop fs.flatten)
    have split2 := specSplit_append (libtwirc_process_data b f).2.length
      (libtwirc_process_data b f).2 le_rfl (chunkLoop fs.flatten)
    have hfeed : feedAll b (f :: fs) =
        ((libtwirc_process_data b f).1 ++
           (feedAll (libtwirc_process_data b f).2 fs).1,
         (feedAll (libtwirc_process_data b f).2 fs).2) := rfl
    refine ⟨(libtwirc_process_data b f).1 ++ pad ++ ts2, ?_, ?_, ?_⟩
    · rw [hjoin, hfeed]
      calc (specSplitMessages ((b ++ chunkLoop f) ++ chunkLoop fs.flatten)).1
          = (specSplitMessages (b ++ chunkLoop f)).1 ++
              (specSplitMessages ((specSplitMessages (b ++ chunkLoop f)).2 ++
                chunkLoop fs.flatten)).1 := by rw [split1]
        _ = (libtwirc_process_data b f).1 ++ pad ++
              (specSplitMessages (libtwirc_process_data b f).2).1 ++
              (specSplitMessages
                ((specSplitMessages (libtwirc_process_data b f).2).2 ++
                  chunkLoop fs.flatten)).1 := by rw [hd1', hd2']
        _ = (libtwirc_process_data b f).1 ++ pad ++
              ((specSplitMessages (libtwirc_process_data b f).2).1 ++
               (specSplitMessages
                 ((specSplitMessages (libtwirc_process_data b f).2).2 ++
                   chunkLoop fs.flatten)).1) := by
                simp [List.append_assoc]
        _ = (libtwirc_process_data b f).1 ++ pad ++
              (specSplitMessages ((libtwirc_process_data b f).2 ++
                chunkLoop fs.flatten)).1 := by rw [split2]
        _ = (libtwirc_process_data b f).1 ++ pad ++
              (ts2 ++ (specSplitMessages
                (feedAll (libtwirc_process_data b f).2 fs).2).1) := by rw [ih1]
        _ = (libtwirc_process_data b f).1 ++ pad ++ ts2 ++
              (specSplitMessages
                (feedAll (libtwirc_process_data b f).2 fs).2).1 := by
                simp [List.append_assoc]
    · rw [hfeed]
      have h1 : (feedAll (libtwirc_process_data b f).2 fs).1.Sublist
          (pad ++ ts2) :=
        ih2.trans (List.sublist_append_right pad ts2)
      have h2 := h1.append_left (libtwirc_process_data b f).1
      simpa [List.append_assoc] using h2
    · rw [hjoin, hfeed]
      calc (specSplitMessages ((b ++ chunkLoop f) ++ chunkLoop fs.flatten)).2
          = (specSplitMessages ((specSplitMessages (b ++ chunkLoop f)).2 ++
              chunkLoop fs.flatten)).2 := by rw [split1]
        _ = (specSplitMessages
              ((specSplitMessages (libtwirc_process_data b f).2).2 ++
                chunkLoop fs.flatten)).2 := by rw [hd2']
        _ = (specSplitMessages ((libtwirc_process_data b f).2 ++
              chunkLoop fs.flatten)).2 := by rw [split2]
        _ = (specSplitMessages
              (feedAll (libtwirc_process_data b f).2 fs).2).2 := ih3

theorem feed_eq : ∀ (fs : List (List Char)) (b : List Char),
    crlfSplitFirst b = none →
    (∀ x ∈ (specSplitMessages (b ++ chunkLoop fs.flatten)).1, x ≠ ([] : List Char)) →
    feedAll b fs = specSplitMessages (b ++ chunkLoop fs.flatten) := by
  intro fs
  induction fs with
  | nil =>
    intro b hb _
    have : chunkLoop ([] : List (List Char)).flatten = [] := rfl
    rw [this, List.append_nil, specSplit_none hb]
    rfl
  | cons f fs ih =>
    intro b hb hne
    have hjoin : b ++ chunkLoop (f :: fs).flatten =
        (b ++ chunkLoop f) ++ chunkLoop fs.flatten := by
      simp [chunkLoop_append, List.append_assoc]
    have split1 := specSplit_append (b ++ chunkLoop f).length (b ++ chunkLoop f)
      le_rfl (chunkLoop fs.flatten)
    have hne' : ∀ x ∈ (specSplitMessages (b ++ chunkLoop f)).1,
        x ≠ ([] : List Char) := by
      intro x hx
      apply hne
      rw [hjoin, split1]
      exact List.mem_append_left _ hx
    have hproc : libtwirc_process_data b f = specSplitMessages (b ++ chunkLoop f) := by
      unfold libtwirc_process_data
      exact extract_eq_spec (b ++ chunkLoop f).length _ le_rfl hne'
    have hrem : crlfSplitFirst (specSplitMessages (b ++ chunkLoop f)).2 = none :=
      specSplit_rem_none (b ++ chunkLoop f).length _ le_rfl
    have hne'' : ∀ x ∈ (specSplitMessages
        ((specSplitMessages (b ++ chunkLoop f)).2 ++ chunkLoop fs.flatten)).1,
        x ≠ ([] : List Char) := by
      intro x hx
      apply hne
      rw [hjoin, split1]
      exact List.mem_append_right _ hx
    have hIH := ih (specSplitMessages (b ++ chunkLoop f)).2 hrem hne''
    have hfeed : feedAll b (f :: fs) =
        ((libtwirc_process_data b f).1 ++
           (feedAll (libtwirc_process_data b f).2 fs).1,
         (feedAll (libtwirc_process_data b f).2 fs).2) := rfl
    rw [hfeed, hproc, hIH, hjoin, split1]

/-- `libtwirc_unescape_tag(val)`: decodes the IRCv3 tag-value escapes.  The C
loop is `for (int i = 0; i < (int) val_len - 1; ++i)`: at each position, a
backslash followed by one of `:`/`s`/`\`/`r`/`n` emits the decoded character
and skips both input characters; otherwise the character at `i` is copied
verbatim (including a backslash that does not start a recognized escape).
Because the loop bound is `val_len - 1`, position `val_len - 1` is never
visited, so a final character that is not consumed as the second half of an
escape is dropped; this is modelled by the one-element base case. -/
def libtwirc_unescape_tag : List Char → List Char
  | a :: b :: rest =>
    if a = '\\' then
      if b = ':' then ';' :: libtwirc_unescape_tag rest
      else if b = 's' then ' ' :: libtwirc_unescape_tag rest
      else if b = '\\' then '\\' :: libtwirc_unescape_tag rest
      else if b = 'r' then '\r' :: libtwirc_unescape_tag rest
      else if b = 'n' then '\n' :: libtwirc_unescape_tag rest
      else a :: libtwirc_unescape_tag (b :: rest)
    else a :: libtwirc_unescape_tag (b :: rest)
  | _ => []

/-- Models `strstr(msg, " ")` plus the split around it used by the parsing
functions: `none` if no space occurs, otherwise the parts before and after
the first space. -/
def spaceSplitFirst : List Char → Option (List Char × List Char)
  | [] => none
  | c :: l =>
    if c = ' ' then some ([], l)
    else
      match spaceSplitFirst l with
      | none => none
      | some (t, r) => some (c :: t, r)

/-- The cursor advance of `libtwirc_parse_tags`: when the message starts with
`@` the tag block runs up to the first space and parsing continues after that
space; otherwise the message is returned unchanged.  (The construction of the
tag array itself is not needed by any claim; tag values are decoded with
`libtwirc_unescape_tag`.)  When the message starts with `@` but contains no
space the C code has undefined behaviour (`strstr` returns NULL and a negative
length is passed to `strndup`); that case is modelled as consuming the whole
message. -/
def libtwirc_parse_tags_rest (msg : List Char) : List Char :=
  if msg.head? = some '@' then
    match spaceSplitFirst msg with
    | none => []
    | some (_, r) => r
  else msg

/-- The cursor advance of `libtwirc_parse_prefix`: when the message starts
with `:` the prefix runs up to the first space and parsing continues after
that space; otherwise the message is returned unchanged.  As with the tag
block, a `:`-led message without a space is undefined behaviour in the C code
and is modelled as consuming the whole message. -/
def libtwirc_parse_pfx_rest (msg : List Char) : List Char :=
  if msg.head? = some ':' then
    match spaceSplitFirst msg with
    | none => []
    | some (_, r) => r
  else msg

/-- `libtwirc_parse_command(msg, &cmd)`: the command is
`strndup(msg, next == NULL ? strlen(msg) - 2 : next - msg)` where `next` is
the first space.  With a space, the command is the token before it and the
returned cursor is the part after it.  With no space the C code copies
`strlen(msg) - 2` bytes — for a message of length at least 2 this drops the
last two characters (the subtraction is performed in `size_t`, so for shorter
messages it wraps around and `strndup` copies the whole string) — and the
returned cursor is NULL (modelled as `none`). -/
def libtwirc_parse_command (msg : List Char) : List Char × Option (List Char) :=
  match spaceSplitFirst msg with
  | some (cmd, rest) => (cmd, some rest)
  | none => (if 2 ≤ msg.length then msg.take (msg.length - 2) else msg, none)

/-- The scanning loop of `libtwirc_parse_params`, one C iteration per list
element.  `cur` holds the characters of the current token scanned since the
`from` marker, `trailing` the `trailing` flag.  Branches, in the C order:
a `':'` while not in the trailing token sets the trailing flag and moves the
`from` marker past the colon (discarding `cur`); a `' '` while not in the
trailing token emits the current token; the last character (when not consumed
by the two branches above, which `continue`) is appended and the token copied.
Returns the emitted tokens and the final trailing flag. -/
def parseParamsGo : List Char → List Char → Bool → List (List Char) × Bool
  | [], _, trailing => ([], trailing)
  | c :: rest, cur, trailing =>
    if rest = [] then
      if c = ':' ∧ trailing = false then ([], true)
      else if c = ' ' ∧ trailing = false then ([cur], trailing)
      else ([cur ++ [c]], trailing)
    else
      if c = ':' ∧ trailing = false then parseParamsGo rest [] true
      else if c = ' ' ∧ trailing = false then
        let p := parseParamsGo rest [] trailing
        (cur :: p.1, p.2)
      else parseParamsGo rest (cur ++ [c]) trailing

/-- `libtwirc_parse_params(msg, &params, &len, &t_idx)`: for a NULL cursor
(command was the last part of the message) there are no parameters and the
trailing index is `-1`.  Otherwise the scanning loop above runs over the
parameter section; the trailing index is `num_tokens - 1` when the trailing
flag was set (the `size_t` subtraction wraps to `-1` in the `int` result when
no token was emitted), `-1` otherwise. -/
def libtwirc_parse_params : Option (List Char) → List (List Char) × Int
  | none => ([], -1)
  | some s =>
    let p := parseParamsGo s [] false
    (p.1, if p.2 then (p.1.length : Int) - 1 else -1)

/-- A well-formed IRC parameter section, built from the claim's reading:
middle parameters separated by single spaces, optionally followed by a
trailing parameter introduced by a token beginning with `:`. -/
def paramSection : List (List Char) → Option (List Char) → List Char
  | [], none => []
  | [], some t => ':' :: t
  | m :: ms, trail =>
    if ms = [] ∧ trail = none then m
    else m ++ ' ' :: paramSection ms trail

/-- Middle parameters are nonempty and contain neither a space nor a colon. -/
def midTokensOK (mids : List (List Char)) : Prop :=
  ∀ m ∈ mids, m ≠ [] ∧ ' ' ∉ m ∧ ':' ∉ m

instance (mids : List (List Char)) : Decidable (midTokensOK mids) := by
  unfold midTokensOK
  infer_instance

theorem parseParamsGo_trailing_run : ∀ (t : List Char), t ≠ [] →
    ∀ cur : List Char, parseParamsGo t cur true = ([cur ++ t], true) := by
  intro t
  induction t with
  | nil => intro h; exact absurd rfl h
  | cons c rest ih =>
    intro _ cur
    cases hr : rest with
    | nil => simp [parseParamsGo]
    | cons d rs =>
      rw [parseParamsGo, if_neg (by simp), if_neg (by simp), if_neg (by simp)]
      rw [hr] at ih
      rw [ih (by simp) (cur ++ [c])]
      simp

theorem parseParamsGo_mid_run : ∀ (m : List Char),
    (∀ c ∈ m, c ≠ ' ' ∧ c ≠ ':') →
    ∀ (rest cur : List Char), rest ≠ [] →
    parseParamsGo (m ++ rest) cur false = parseParamsGo rest (cur ++ m) false := by
  intro m
  induction m with
  | nil => intro _ rest cur _; simp
  | cons a m' ih =>
    intro hm rest cur hrest
    have ha := hm a (List.mem_cons_self a m')
    rw [List.cons_append, parseParamsGo,
      if_neg (by simp [hrest]), if_neg (by simp [ha.2]), if_neg (by simp [ha.1])]
    rw [ih (fun c hc => hm c (List.mem_cons_of_mem a hc)) rest (cur ++ [a]) hrest]
    simp

theorem parseParamsGo_last_run : ∀ (m : List Char), m ≠ [] →
    (∀ c ∈ m, c ≠ ' ' ∧ c ≠ ':') →
    ∀ cur : List Char, parseParamsGo m cur false = ([cur ++ m], false) := by
  intro m
  induction m with
  | nil => intro h; exact absurd rfl h
  | cons a m' ih =>
    intro _ hm cur
    have ha := hm a (List.mem_cons_self a m')
    cases hr : m' with
    | nil =>
      rw [parseParamsGo, if_pos rfl,
        if_neg (by simp [ha.2]), if_neg (by simp [ha.1])]
    | cons d rs =>
      rw [parseParamsGo, if_neg (by simp),
        if_neg (by simp [ha.2]), if_neg (by simp [ha.1])]
      rw [hr] at ih
      rw [ih (by simp) (fun c hc => hm c (hr ▸ List.mem_cons_of_mem a hc)) (cur ++ [a])]
      simp

theorem paramSection_ne_nil : ∀ (ms : List (List Char)) (trail : Option (List Char)),
    midTokensOK ms → ¬(ms = [] ∧ trail = none) →
    paramSection ms trail ≠ [] := by
  intro ms trail hok hne
  match ms, trail with
  | [], none => exact absurd ⟨rfl, rfl⟩ hne
  | [], some t => simp [paramSection]
  | m :: ms', trail =>
    rw [paramSection]
    by_cases hmt : ms' = [] ∧ trail = none
    · rw [if_pos hmt]
      exact (hok m (List.mem_cons_self m ms')).1
    · rw [if_neg hmt]
      simp

theorem parseParamsGo_section : ∀ (mids : List (List Char))
    (trail : Option (List Char)),
    midTokensOK mids →
    parseParamsGo (paramSection mids trail) [] false =
      (mids ++ (match trail with
                | some (c :: t) => [c :: t]
                | _ => ([] : List (List Char))),
       trail.isSome) := by
  intro mids
  induction mids with
  | nil =>
    intro trail _
    match trail with
    | none => simp [paramSection, parseParamsGo]
    | some [] => simp [paramSection, parseParamsGo]
    | some (d :: rs) =>
      rw [paramSection, parseParamsGo, if_neg (by simp), if_pos (by simp)]
      rw [parseParamsGo_trailing_run (d :: rs) (by simp) []]
      simp
  | cons m ms ih =>
    intro trail hok
    have hm := hok m (List.mem_cons_self m ms)
    have hchars : ∀ c ∈ m, c ≠ ' ' ∧ c ≠ ':' := by
      intro c hc
      constructor
      · intro hcs; exact hm.2.1 (hcs ▸ hc)
      · intro hcc; exact hm.2.2 (hcc ▸ hc)
    have hok' : midTokensOK ms := fun x hx => hok x (List.mem_cons_of_mem m hx)
    rw [paramSection]
    by_cases hmt : ms = [] ∧ trail = none
    · obtain ⟨rfl, rfl⟩ := hmt
      rw [if_pos ⟨rfl, rfl⟩, parseParamsGo_last_run m hm.1 hchars []]
      simp
    · rw [if_neg hmt]
      have hsec : paramSection ms trail ≠ [] := paramSection_ne_nil ms trail hok' hmt
      rw [parseParamsGo_mid_run m hchars (' ' :: paramSection ms trail) [] (by simp)]
      rw [List.nil_append, parseParamsGo, if_neg (by simpa using hsec),
        if_neg (by simp), if_pos (by simp)]
      rw [ih trail hok']
      simp

/-- Connection status flags, from libtwirc.h. -/
def TWIRC_STATUS_DISCONNECTED : Nat := 0

/-- Connection status flag: asynchronous connect in progress. -/
def TWIRC_STATUS_CONNECTING : Nat := 1

/-- Connection status flag: the transport connection is established. -/
def TWIRC_STATUS_CONNECTED : Nat := 2

/-- Connection status flag: credentials sent, awaiting confirmation. -/
def TWIRC_STATUS_AUTHENTICATING : Nat := 4

/-- Connection status flag: login confirmed. -/
def TWIRC_STATUS_AUTHENTICATED : Nat := 8

/-- The decoded event handed to `libtwirc_dispatch_evt` (struct twirc_event):
the fields the dispatcher reads or writes.  `channel` is NULL (`none`) as
produced by the decoder; the dispatcher may set it from `params[0]`. -/
structure Event where
  command : List Char
  params : List (List Char)
  trailing : Int
  channel : Option (List Char)
deriving DecidableEq

/-- User callback slots of the callback table that the dispatcher invokes. -/
inductive CbName
  | connect | welcome | ping | join | privmsg | clearchat | whisper
deriving DecidableEq

/-- Observable actions of the engine, in program order: a `twirc_send` of a
message (payload before the CR LF appended by `twirc_send`), an invocation of
a user callback, and a read of `evt->params[i]` by the dispatcher or an
internal handler. -/
inductive Act
  | send (msg : List Char)
  | cb (name : CbName)
  | readParam (i : Nat)
deriving DecidableEq

/-- The control byte 0x01 delimiting CTCP messages. -/
def ctcpChar : Char := Char.ofNat 1

/-- `twirc_cmd_pong(state, param)`: sends `PONG `, a `:` unless the parameter
already starts with one, then the parameter (the empty string for a NULL
parameter). -/
def pongMsg (p : Option (List Char)) : List Char :=
  ("PONG ").toList ++
    (match p with
     | none => [':']
     | some t => (if t.head? = some ':' then [] else [':']) ++ t)

/-- Result of `libtwirc_dispatch_evt`: the updated status flags, the event
(whose `channel` field the dispatcher may have set), the observable actions
in order, and the C return value. -/
structure DispatchResult where
  status : Nat
  event : Event
  acts : List Act
  ret : Int
deriving DecidableEq

/-- `libtwirc_dispatch_evt(state, evt)`: matches the command against, in
order, "001", "JOIN", "PING", "PRIVMSG" (the latter only with at least two
parameters), "CLEARCHAT" and "WHISPER".  "001" runs `libtwirc_on_welcome`
(which ORs `TWIRC_STATUS_AUTHENTICATED` into the status) then the user
welcome callback.  "JOIN" sets `evt->channel = evt->params[0]` and calls the
join callback.  "PING" runs `libtwirc_on_ping` (which sends a pong echoing
`evt->params[0]`) then the ping callback.  "PRIVMSG" with two or more
parameters sets the channel from `params[0]` and, unless `params[1]` starts
and ends with the CTCP 0x01 byte, calls the privmsg callback (a CTCP message
is swallowed).  "CLEARCHAT" and "WHISPER" call their callbacks (their
internal handlers are empty stubs).  Any other command falls through and
returns -1 with no action. -/
def libtwirc_dispatch_evt (status : Nat) (e : Event) : DispatchResult :=
  if e.command = ("001").toList then
    { status := status ||| TWIRC_STATUS_AUTHENTICATED, event := e,
      acts := [Act.cb CbName.welcome], ret := 0 }
  else if e.command = ("JOIN").toList then
    { status := status, event := { e with channel := e.params[0]? },
      acts := [Act.readParam 0, Act.cb CbName.join], ret := 0 }
  else if e.command = ("PING").toList then
    { status := status, event := e,
      acts := [Act.readParam 0, Act.send (pongMsg e.params[0]?),
               Act.cb CbName.ping], ret := 0 }
  else if e.command = ("PRIVMSG").toList ∧ 2 ≤ e.params.length then
    if (e.params.getD 1 []).head? = some ctcpChar ∧
       (e.params.getD 1 []).getLast? = some ctcpChar then
      { status := status, event := { e with channel := e.params[0]? },
        acts := [Act.readParam 0, Act.readParam 1], ret := 0 }
    else
      { status := status, event := { e with channel := e.params[0]? },
        acts := [Act.readParam 0, Act.readParam 1, Act.cb CbName.privmsg],
        ret := 0 }
  else if e.command = ("CLEARCHAT").toList then
    { status := status, event := e, acts := [Act.cb CbName.clearchat], ret := 0 }
  else if e.command = ("WHISPER").toList then
    { status := status, event := e, acts := [Act.cb CbName.whisper], ret := 0 }
  else
    { status := status, event := e, acts := [], ret := -1 }

/-- `libtwirc_process_msg(state, msg)`: decodes one complete message — tag
block, prefix, command, parameters — into an event and dispatches it.
Returns the updated status and the observable actions. -/
def libtwirc_process_msg (status : Nat) (msg : List Char) : Nat × List Act :=
  let m1 := libtwirc_parse_tags_rest msg
  let m2 := libtwirc_parse_pfx_rest m1
  let pc := libtwirc_parse_command m2
  let pp := libtwirc_parse_params pc.2
  let d := libtwirc_dispatch_evt status
    { command := pc.1, params := pp.1, trailing := pp.2, channel := none }
  (d.status, d.acts)

/-- The part of struct twirc_state that the modelled operations touch. -/
structure TwircState where
  status : Nat
  pass : List Char
  nick : List Char
  buffer : List Char
  running : Bool
deriving DecidableEq

/-- The capability request sent by `twirc_cmd_req_tags`. -/
def capReqTags : List Char := ("CAP REQ :twitch.tv/tags").toList

/-- The capability request sent by `twirc_cmd_req_membership`. -/
def capReqMembership : List Char := ("CAP REQ :twitch.tv/membership").toList

/-- The capability request sent by `twirc_cmd_req_commands`. -/
def capReqCommands : List Char := ("CAP REQ :twitch.tv/commands").toList

/-- `libtwirc_process_data` followed by `libtwirc_process_msg` on each
extracted message, as performed inside the readable branch of
`libtwirc_handle_event` for one received span. -/
def processSpan (s : TwircState) (span : List Char) : TwircState × List Act :=
  let p := libtwirc_process_data s.buffer span
  let r := p.1.foldl
    (fun (acc : Nat × List Act) m =>
      let pm := libtwirc_process_msg acc.1 m
      (pm.1, acc.2 ++ pm.2))
    (s.status, [])
  ({ s with status := r.1, buffer := p.2 }, r.2)

/-- The readable branch of `libtwirc_handle_event`: `twirc_recv` is called in
a loop until it stops returning a positive byte count, and every received
span is passed to `libtwirc_process_data`.  `incoming` is the list of spans
the successive successful receive calls deliver. -/
def recvLoop (s : TwircState) (incoming : List (List Char)) :
    TwircState × List Act :=
  incoming.foldl
    (fun (acc : TwircState × List Act) span =>
      let p := processSpan acc.1 span
      (p.1, acc.2 ++ p.2))
    (s, [])

/-- `libtwirc_on_connect(s)`: refuses (returning -1, no action) when the
status already has the Authenticating or Authenticated flag; otherwise sends
the three capability requests (`twirc_capreq`), then the password and the
nickname (`twirc_auth`), and ORs `TWIRC_STATUS_AUTHENTICATING` into the
status. -/
def libtwirc_on_connect (s : TwircState) : TwircState × List Act × Int :=
  if s.status &&& TWIRC_STATUS_AUTHENTICATING ≠ 0 then (s, [], -1)
  else if s.status &&& TWIRC_STATUS_AUTHENTICATED ≠ 0 then (s, [], -1)
  else
    ({ s with status := s.status ||| TWIRC_STATUS_AUTHENTICATING },
     [Act.send capReqTags, Act.send capReqMembership, Act.send capReqCommands,
      Act.send (("PASS ").toList ++ s.pass),
      Act.send (("NICK ").toList ++ s.nick)], 0)

/-- The readiness flags of one epoll notification, as tested by
`libtwirc_handle_event`. -/
structure EpollFlags where
  epollin : Bool
  epollout : Bool
  rdhup : Bool
  hup : Bool
  err : Bool
deriving DecidableEq

/-- `libtwirc_handle_event(s, epev)`: on a readable notification, drain the
socket and process the data; on a writable notification while the status has
the Connecting flag, overwrite the status with `TWIRC_STATUS_CONNECTED`
(discarding all other flags), run `libtwirc_on_connect` (capability requests,
then credentials, then the Authenticating flag) and invoke the user connect
callback; on a hangup or error notification, set the status to Disconnected,
clear the run flag and return -1.  Returns the new state, the observable
actions in program order, and the C return value. -/
def libtwirc_handle_event (s : TwircState) (ev : EpollFlags)
    (incoming : List (List Char)) : TwircState × List Act × Int :=
  let pin := if ev.epollin then recvLoop s incoming else (s, [])
  let pout :=
    if ev.epollout ∧ pin.1.status &&& TWIRC_STATUS_CONNECTING ≠ 0 then
      let oc := libtwirc_on_connect { pin.1 with status := TWIRC_STATUS_CONNECTED }
      (oc.1, pin.2 ++ oc.2.1 ++ [Act.cb CbName.connect])
    else (pin.1, pin.2)
  if ev.rdhup then
    ({ pout.1 with status := TWIRC_STATUS_DISCONNECTED, running := false },
     pout.2, -1)
  else if ev.hup then
    ({ pout.1 with status := TWIRC_STATUS_DISCONNECTED, running := false },
     pout.2, -1)
  else if ev.err then
    ({ pout.1 with status := TWIRC_STATUS_DISCONNECTED, running := false },
     pout.2, -1)
  else (pout.1, pout.2, 0)

/-- The error conditions that `stcpnb_receive`/`recv` can leave in `errno`,
as distinguished by `twirc_recv`. -/
inductive Errno
  | eagain | ewouldblock | ebadf | econnrefused | efault | enotconn
deriving DecidableEq

/-- Outcome of the underlying non-blocking `stcpnb_receive`: either a span of
received bytes, or a failure (-1) with the given `errno`. -/
inductive RecvOutcome
  | ok (data : List Char)
  | fail (e : Errno)
deriving DecidableEq

/-- `twirc_recv(state, buf, len)`: when `stcpnb_receive` returns -1 the
wrapper returns 0 for `EAGAIN`/`EWOULDBLOCK` ("no more data to read right
now") and -1 for every other error; otherwise it returns the byte count
reported by `stcpnb_receive`. -/
def twirc_recv : RecvOutcome → Int
  | RecvOutcome.ok data => (data.length : Int)
  | RecvOutcome.fail e =>
    if e = Errno.eagain ∨ e = Errno.ewouldblock then 0 else -1

/-- The event produced by decoding a GLOBALUSERSTATE line, as handed to
`libtwirc_dispatch_evt`. -/
def guEvent : Event :=
  { command := ("GLOBALUSERSTATE").toList, params := [], trailing := -1,
    channel := none }

/-- The event produced by decoding the numeric welcome line "001", as handed
to `libtwirc_dispatch_evt`. -/
def welcomeEvt : Event :=
  { command := ("001").toList, params := [("kaulmate").toList],
    trailing := -1, channel := none }

/-- A decoded PRIVMSG event carrying only one parameter. -/
def privEvt : Event :=
  { command := ("PRIVMSG").toList, params := [("#chan").toList],
    trailing := -1, channel := none }

/-- Claim C1: the claim states that `libtwirc_unescape_tag` copies every
character that is not part of a recognized two-character escape through
verbatim, and in particular decodes the tag value `a\sb\:c\\d` to `a b;c\d`.
The code disagrees: its loop bound `i < (int) val_len - 1` never visits the
final character, so the `d` is dropped and the input decodes to `a b;c\`. -/
theorem claim1_eval :
    libtwirc_unescape_tag (("a\\sb\\:c\\\\d").toList) = ("a b;c\\").toList ∧
    libtwirc_unescape_tag (("a\\sb\\:c\\\\d").toList) ≠ ("a b;c\\d").toList := by
  constructor
  · decide
  · decide

/-- Claim C2: the claim states that dispatching an event whose command is
"001" or "GLOBALUSERSTATE" ORs the Authenticated flag into the status.  The
dispatcher has no GLOBALUSERSTATE branch (`libtwirc_on_globaluserstate`
exists and would set the flag, but is never called), so a GLOBALUSERSTATE
event falls through: the status is returned unchanged, no action is taken
and -1 is returned; in particular, in status Connected|Authenticating the
Authenticated flag is still absent afterwards.  By contrast the "001" half of
the claim does hold: dispatching a 001 event ORs the Authenticated flag into
the existing flag set (last conjunct). -/
theorem claim2_eval :
    (∀ status : Nat, libtwirc_dispatch_evt status guEvent =
      { status := status, event := guEvent, acts := [], ret := -1 }) ∧
    (libtwirc_dispatch_evt
        (TWIRC_STATUS_CONNECTED ||| TWIRC_STATUS_AUTHENTICATING)
        guEvent).status &&& TWIRC_STATUS_AUTHENTICATED = 0 ∧
    (∀ status : Nat, (libtwirc_dispatch_evt status welcomeEvt).status =
      status ||| TWIRC_STATUS_AUTHENTICATED) := by
  refine ⟨?_, by decide, ?_⟩
  · intro status
    unfold libtwirc_dispatch_evt
    rw [if_neg (by decide), if_neg (by decide), if_neg (by decide),
      if_neg (by decide), if_neg (by decide), if_neg (by decide)]
  · intro status
    unfold libtwirc_dispatch_evt
    rw [if_pos (by decide)]

/-- Claim C3: on a writable readiness notification (and no other flag) while
the status has the Connecting flag, `libtwirc_handle_event` leaves the status
at Connected|Authenticating and the observable actions of the call are
exactly the three capability-request sends, then the password send, then the
nickname send (followed by the user connect callback); no reply is processed
during the call. -/
theorem claim3 (s : TwircState)
    (h : s.status &&& TWIRC_STATUS_CONNECTING ≠ 0) :
    libtwirc_handle_event s
      { epollin := false, epollout := true, rdhup := false, hup := false,
        err := false } [] =
      ({ s with status := TWIRC_STATUS_CONNECTED ||| TWIRC_STATUS_AUTHENTICATING },
       [Act.send capReqTags, Act.send capReqMembership, Act.send capReqCommands,
        Act.send (("PASS ").toList ++ s.pass),
        Act.send (("NICK ").toList ++ s.nick),
        Act.cb CbName.connect], 0) := by
  unfold libtwirc_handle_event libtwirc_on_connect
  simp [h, TWIRC_STATUS_CONNECTED, TWIRC_STATUS_AUTHENTICATING,
    TWIRC_STATUS_AUTHENTICATED]
  rw [if_pos (show (2 : Nat) &&& 4 = 0 by decide),
    if_pos (show (2 : Nat) &&& 8 = 0 by decide)]
  exact ⟨rfl, rfl⟩

/-- A concrete connecting state used to witness claim C3. -/
def witState : TwircState :=
  { status := TWIRC_STATUS_CONNECTING, pass := ("secret").toList,
    nick := ("kaulmate").toList, buffer := [], running := true }

/-- Witness for claim C3 at a concrete connecting state. -/
theorem claim3_witness :
    witState.status &&& TWIRC_STATUS_CONNECTING ≠ 0 ∧
    libtwirc_handle_event witState
      { epollin := false, epollout := true, rdhup := false, hup := false,
        err := false } [] =
      ({ witState with
          status := TWIRC_STATUS_CONNECTED ||| TWIRC_STATUS_AUTHENTICATING },
       [Act.send capReqTags, Act.send capReqMembership, Act.send capReqCommands,
        Act.send (("PASS ").toList ++ witState.pass),
        Act.send (("NICK ").toList ++ witState.nick),
        Act.cb CbName.connect], 0) :=
  ⟨by decide, claim3 witState (by decide)⟩

/-- Claim C4: starting from an empty backlog, feeding the span "PI" and then
the span "NG :tmi.example\r\n" through the reassembler yields exactly one
message, "PING :tmi.example", and leaves the backlog empty. -/
theorem claim4 :
    feedAll [] [("PI").toList, ("NG :tmi.example\r\n").toList] =
      ([("PING :tmi.example").toList], []) := by
  decide

/-- Claim C5: messages are yielded in the exact order their bytes were
appended, for every fragmentation of the byte stream.  First conjunct: for
every fragmentation, the yielded messages form an order-preserving
subsequence of the complete messages of the whole stream (chunked as one
span), so no reordering ever occurs.  Second conjunct: when none of the
stream's complete messages is empty, every fragmentation yields exactly the
complete messages of the stream, in order, with the same final backlog.
Third conjunct: feeding "FOO\r\nBAR\r\n" in one call yields exactly "FOO"
then "BAR". -/
theorem claim5 :
    (∀ fs : List (List Char),
      ((feedAll [] fs).1).Sublist
        (specSplitMessages (chunkLoop fs.flatten)).1) ∧
    (∀ fs : List (List Char),
      (∀ x ∈ (specSplitMessages (chunkLoop fs.flatten)).1, x ≠ ([] : List Char)) →
      feedAll [] fs = specSplitMessages (chunkLoop fs.flatten)) ∧
    feedAll [] [("FOO\r\nBAR\r\n").toList] =
      ([("FOO").toList, ("BAR").toList], []) := by
  refine ⟨?_, ?_, by decide⟩
  · intro fs
    obtain ⟨ts, h1, h2, _⟩ := feed_decomp fs []
    rw [List.nil_append] at h1
    exact h2.trans (h1 ▸ List.sublist_append_left ts _)
  · intro fs hne
    have := feed_eq fs [] rfl (by simpa using hne)
    simpa using this

/-- Witness for claim C5's universally quantified part, at a three-way
fragmentation of the stream "FOO\r\nBAR\r\n". -/
theorem claim5_witness :
    (∀ x ∈ (specSplitMessages (chunkLoop
        ([("FO").toList, ("O\r\nB").toList, ("AR\r\n").toList]).flatten)).1,
      x ≠ ([] : List Char)) ∧
    feedAll [] [("FO").toList, ("O\r\nB").toList, ("AR\r\n").toList] =
      specSplitMessages (chunkLoop
        ([("FO").toList, ("O\r\nB").toList, ("AR\r\n").toList]).flatten) :=
  ⟨by decide,
   claim5.2.1 [("FO").toList, ("O\r\nB").toList, ("AR\r\n").toList] (by decide)⟩

/-- Claim C6, counterexample: the read "\r\nA\r\n" carries two complete
terminator-ended messages back to back (the empty message and "A"), but a
single extraction pass from an empty backlog yields none of them: the empty
first token makes `libtwirc_shift_token` return 0, which ends the
`while (... > 0)` pass before anything is processed. -/
theorem claim6_counterexample :
    (specSplitMessages (("\r\nA\r\n").toList)).1 = [[], ("A").toList] ∧
    (libtwirc_process_data [] (("\r\nA\r\n").toList)).1 = [] := by
  decide

/-- Claim C6, amended: for every backlog and read such that none of the
complete terminator-ended messages they carry is empty, a single extraction
pass yields all of them, in order, leaving exactly the incomplete remainder
in the backlog. -/
theorem claim6_amended (b input : List Char)
    (h : ∀ x ∈ (specSplitMessages (b ++ chunkLoop input)).1, x ≠ ([] : List Char)) :
    libtwirc_process_data b input = specSplitMessages (b ++ chunkLoop input) :=
  extract_eq_spec (b ++ chunkLoop input).length _ le_rfl h

/-- Witness for claim C6's amended statement, at a read carrying two complete
messages back to back. -/
theorem claim6_witness :
    (∀ x ∈ (specSplitMessages ([] ++ chunkLoop (("FOO\r\nBAR\r\n").toList))).1,
      x ≠ ([] : List Char)) ∧
    libtwirc_process_data [] (("FOO\r\nBAR\r\n").toList) =
      specSplitMessages ([] ++ chunkLoop (("FOO\r\nBAR\r\n").toList)) :=
  ⟨by decide, claim6_amended [] (("FOO\r\nBAR\r\n").toList) (by decide)⟩

/-- Claim C7: the claim states that the decoded command is the token up to
the next space, or the entire remainder of the line when no space follows.
The space case holds (third conjunct), but with no space the code duplicates
`strlen(msg) - 2` bytes — the terminator-stripped line "RECONNECT" decodes to
the command "RECONNE", not "RECONNECT" (the `- 2` assumes a CR LF that
`libtwirc_shift_token` already removed). -/
theorem claim7_eval :
    libtwirc_parse_command (("RECONNECT").toList) = (("RECONNE").toList, none) ∧
    (("RECONNE").toList : List Char) ≠ ("RECONNECT").toList ∧
    libtwirc_parse_command (("PRIVMSG #chan :hello world").toList) =
      (("PRIVMSG").toList, some (("#chan :hello world").toList)) := by
  refine ⟨by decide, by decide, by decide⟩

/-- Claim C8, counterexample, two divergences.  First: the claim states that
only a token beginning with `:` starts the trailing parameter, so the
parameter section `ab:cd ef` should decode to the two parameters "ab:cd" and
"ef" with no trailing index; the code instead treats the colon in the middle
of the first token as the start of the trailing parameter, discarding the
characters scanned before it, and decodes the single parameter "cd ef" with
trailing index 0.  Second: for a token that is a bare `:` at the end of the
line the claim's rule yields an empty trailing parameter at index 1 for the
section `a :`; the code emits no trailing parameter at all (the colon branch
`continue`s past the final-character copy) and records trailing index 0, the
position of the last middle parameter. -/
theorem claim8_counterexample :
    (libtwirc_parse_params (some (("ab:cd ef").toList)) =
       ([("cd ef").toList], 0) ∧
     ([("cd ef").toList], (0 : Int)) ≠
       ([("ab:cd").toList, ("ef").toList], (-1 : Int))) ∧
    (libtwirc_parse_params (some (("a :").toList)) = ([("a").toList], 0) ∧
     ([("a").toList], (0 : Int)) ≠
       ([("a").toList, ([] : List Char)], (1 : Int))) := by
  refine ⟨⟨by decide, by decide⟩, ⟨by decide, by decide⟩⟩

/-- Claim C8, amended: for every parameter section whose middle parameters
contain no colon (and no space, being tokens), the decoding is: with no
trailing token, the space-separated middle tokens with trailing index -1;
with a trailing token `:`-prefixing a nonempty rest of the line, the middle
tokens followed by the trailing parameter, which absorbs all remaining
characters including embedded spaces, with the trailing index that
parameter's position; with a bare `:` ending the line (empty trailing
parameter), no trailing parameter is emitted and the recorded trailing index
is the position of the last middle parameter, or -1 with no middle
parameters.  (A colon inside a middle token instead starts the trailing
parameter there, discarding the token characters before it — see the
counterexample, which exhibits both deviations from the original claim.) -/
theorem claim8_amended (mids : List (List Char)) (trail : Option (List Char))
    (h1 : midTokensOK mids) :
    libtwirc_parse_params (some (paramSection mids trail)) =
      (match trail with
       | none => (mids, (-1 : Int))
       | some [] => (mids, (mids.length : Int) - 1)
       | some (c :: t) => (mids ++ [c :: t], (mids.length : Int))) := by
  unfold libtwirc_parse_params
  dsimp only
  rw [parseParamsGo_section mids trail h1]
  match trail with
  | none => simp
  | some [] => simp
  | some (c :: t) =>
    simp only [Option.isSome_some, if_true, List.length_append,
      List.length_cons, List.length_nil, Prod.mk.injEq]
    refine ⟨trivial, ?_⟩
    push_cast
    omega

/-- Witness for claim C8's amended statement, applied both at the claim's own
example `PRIVMSG #chan :hello world` — the parameter section decodes to the
parameters "#chan" and "hello world" with trailing index 1, and the command
decodes to PRIVMSG — and at the empty-trailing section `a :`, which decodes
to the single parameter "a" with trailing index 0. -/
theorem claim8_witness :
    midTokensOK [("#chan").toList] ∧
    libtwirc_parse_params
        (some (paramSection [("#chan").toList] (some (("hello world").toList)))) =
      ([("#chan").toList, ("hello world").toList], 1) ∧
    paramSection [("#chan").toList] (some (("hello world").toList)) =
      ("#chan :hello world").toList ∧
    libtwirc_parse_command (("PRIVMSG #chan :hello world").toList) =
      (("PRIVMSG").toList, some (("#chan :hello world").toList)) ∧
    libtwirc_parse_params
        (some (paramSection [("a").toList] (some ([] : List Char)))) =
      ([("a").toList], 0) ∧
    paramSection [("a").toList] (some ([] : List Char)) = ("a :").toList :=
  ⟨by decide,
   (claim8_amended [("#chan").toList] (some (("hello world").toList))
     (by decide)).trans (by decide),
   by decide, by decide,
   (claim8_amended [("a").toList] (some ([] : List Char))
     (by decide)).trans (by decide),
   by decide⟩

/-- Claim C9: `twirc_recv` distinguishes would-block from error: when the
underlying receive fails with EAGAIN or EWOULDBLOCK it returns 0, for every
other failure it returns -1, and on success it returns the number of bytes
read. -/
theorem claim9 :
    (∀ e : Errno, e = Errno.eagain ∨ e = Errno.ewouldblock →
      twirc_recv (RecvOutcome.fail e) = 0) ∧
    (∀ e : Errno, ¬(e = Errno.eagain ∨ e = Errno.ewouldblock) →
      twirc_recv (RecvOutcome.fail e) = -1) ∧
    (∀ data : List Char,
      twirc_recv (RecvOutcome.ok data) = (data.length : Int)) := by
  refine ⟨?_, ?_, ?_⟩
  · intro e he
    simp [twirc_recv, he]
  · intro e he
    simp [twirc_recv, he]
  · intro data
    rfl

/-- Witness for claim C9 at concrete receive outcomes. -/
theorem claim9_witness :
    twirc_recv (RecvOutcome.fail Errno.ewouldblock) = 0 ∧
    twirc_recv (RecvOutcome.fail Errno.econnrefused) = -1 ∧
    twirc_recv (RecvOutcome.ok (("PING").toList)) = ((("PING").toList).length : Int) :=
  ⟨claim9.1 Errno.ewouldblock (Or.inr rfl),
   claim9.2.1 Errno.econnrefused (by decide),
   claim9.2.2 (("PING").toList)⟩

/-- Claim C10: dispatching a decoded event whose command is "PRIVMSG" but
which carries fewer than two parameters takes no branch (the guard
`num_params >= 2` fails and no other command matches): no user callback is
invoked, the event's channel field is not set, no parameter is read, the
status is unchanged and -1 is returned. -/
theorem claim10 (status : Nat) (e : Event)
    (hcmd : e.command = ("PRIVMSG").toList) (hlen : e.params.length < 2) :
    libtwirc_dispatch_evt status e =
      { status := status, event := e, acts := [], ret := -1 } := by
  unfold libtwirc_dispatch_evt
  rw [if_neg (by rw [hcmd]; decide), if_neg (by rw [hcmd]; decide),
    if_neg (by rw [hcmd]; decide),
    if_neg (fun hc => absurd hc.2 (by omega)),
    if_neg (by rw [hcmd]; decide), if_neg (by rw [hcmd]; decide)]

/-- Witness for claim C10 at a concrete one-parameter PRIVMSG event. -/
theorem claim10_witness :
    privEvt.command = ("PRIVMSG").toList ∧ privEvt.params.length < 2 ∧
    libtwirc_dispatch_evt 6 privEvt =
      { status := 6, event := privEvt, acts := [], ret := -1 } :=
  ⟨rfl, by decide, claim10 6 privEvt rfl (by decide)⟩

end Libtwirc
